import Mathlib

/-!
# Verification of the `geometrize` geometric/heatmap core

Shallow embedding of the repository's core, claim by claim:

* `src/math/vector.rs`, `src/math/point.rs` — 2D vector/point kernel.  The Rust
  code works on `f64`; here the arithmetic is idealized over an exact field
  (`ℚ` where decidability is wanted, `ℝ` where `sqrt`/`arccos` are needed).
  Every concrete input used below has exactly representable `f64` coordinates
  and all the `f64` operations involved at those inputs are exact, so the
  idealization is faithful at the evaluated points.
* `src/math/shapes/*.rs`, `src/libgeometrize/math/shapes/rectangle.rs` — the
  shape validity predicates.
* `src/libgeometrize/images/heatmap.rs` — the heatmap accumulator.  Cells are
  `u64`; cell values are modelled as `Nat` and the `+` of the merge carries the
  `u64` wrap-around `% 2 ^ 64` explicitly.  Dimension arithmetic is modelled on
  `Nat`: the spec (§4.3) treats allocation overflow as an implementation
  ceiling outside the logical model.
-/

namespace Geometrize

/-! ## 2D vector/point kernel -/

/-- `Vector` (vector.rs): an `(x, y)` displacement. -/
structure Vector (α : Type) where
  x : α
  y : α
  deriving DecidableEq

/-- `Point` (point.rs): an `(x, y)` position. -/
structure Point (α : Type) where
  x : α
  y : α
  deriving DecidableEq

variable {α : Type}

/-- `Vector::dot` (vector.rs:58-61): `self.x * other.x + self.y * other.y`. -/
def Vector.dot [Mul α] [Add α] (u v : Vector α) : α :=
  u.x * v.x + u.y * v.y

/-- Modelled from the spec: `Vector::cross` is called by `Polygon::is_valid`
(polygon.rs) but its definition is not among the provided sources.  The spec
speaks of "the signed cross product of consecutive edge vectors"; this is the
standard 2D signed cross product. -/
def Vector.cross [Mul α] [Sub α] (u v : Vector α) : α :=
  u.x * v.y - u.y * v.x

/-- Rust `impl Sub for Point` (point.rs:31-40): the expression `p - q`
dispatches with `self = p`, `other = q` and returns
`(other.x - self.x, other.y - self.y)`, i.e. the displacement from `p` to `q`.
`Point.sub p q` models the Rust expression `p - q`. -/
def Point.sub [Sub α] (p q : Point α) : Vector α :=
  ⟨q.x - p.x, q.y - p.y⟩

/-- Rust `impl Add<Vector> for Point` (point.rs:20-29): componentwise sum.
`Point.addVec p v` models the Rust expression `p + v`. -/
def Point.addVec [Add α] (p : Point α) (v : Vector α) : Point α :=
  ⟨p.x + v.x, p.y + v.y⟩

/-! ## Real-valued kernel helpers and the triangle predicate

`Triangle::is_valid` composes `sqrt` (inside `q_rsqrt`) and `acos`, so the
triangle is embedded over `ℝ`. -/

/-- Modelled from the spec: `q_rsqrt` (vector.rs:11-33) is the Quake bit-level
approximation of the reciprocal square root; spec §4.1/§9 sanctions the exact
`1/sqrt x` as a substitute, which is what this embedding uses (the
approximation error is far below the margins of every comparison proved
below). -/
noncomputable def rsqrt (x : ℝ) : ℝ := (Real.sqrt x)⁻¹

/-- `Vector::normalize` (vector.rs:48-55): scales the vector by
`q_rsqrt (dot v v)`. -/
noncomputable def Vector.normalize (v : Vector ℝ) : Vector ℝ :=
  ⟨v.x * rsqrt (v.dot v), v.y * rsqrt (v.dot v)⟩

/-- `f64::to_degrees`: multiplication by `180 / π`. -/
noncomputable def toDegrees (x : ℝ) : ℝ := x * (180 / Real.pi)

/-- `Triangle` (triangle.rs:11-13): three vertices
(`v0 = vertices[0]`, `v1 = vertices[1]`, `v2 = vertices[2]`). -/
structure Triangle where
  v0 : Point ℝ
  v1 : Point ℝ
  v2 : Point ℝ

/-- `MIN_INTERNAL_ANGLE` (triangle.rs:16). -/
noncomputable def MIN_INTERNAL_ANGLE : ℝ := 15

/-- The source's `a1` (triangle.rs:31-35): arccos of the dot product of the
normalized `vertices[1] - vertices[0]` and `vertices[2] - vertices[0]`,
converted to degrees. -/
noncomputable def Triangle.angle1 (t : Triangle) : ℝ :=
  toDegrees (Real.arccos
    ((Point.sub t.v1 t.v0).normalize.dot (Point.sub t.v2 t.v0).normalize))

/-- The source's `a2` (triangle.rs:36-40). -/
noncomputable def Triangle.angle2 (t : Triangle) : ℝ :=
  toDegrees (Real.arccos
    ((Point.sub t.v0 t.v1).normalize.dot (Point.sub t.v2 t.v1).normalize))

/-- `Triangle::is_valid` (triangle.rs:30-44): `a3 = 180 - a2 - a1` and all
three angles at least `MIN_INTERNAL_ANGLE`. -/
def Triangle.IsValid (t : Triangle) : Prop :=
  MIN_INTERNAL_ANGLE ≤ t.angle1 ∧ MIN_INTERNAL_ANGLE ≤ t.angle2 ∧
    MIN_INTERNAL_ANGLE ≤ 180 - t.angle2 - t.angle1

/-- The claim's interior angle at vertex `a`: arccos of the dot product of the
normalized edge vectors pointing from `a` to `b` and from `a` to `c`
(`Point.sub t.v0 t.v1` is the displacement from `v0` to `v1`), in degrees. -/
noncomputable def Triangle.claimAngleA (t : Triangle) : ℝ :=
  toDegrees (Real.arccos
    ((Point.sub t.v0 t.v1).normalize.dot (Point.sub t.v0 t.v2).normalize))

/-- The claim's interior angle at vertex `b`. -/
noncomputable def Triangle.claimAngleB (t : Triangle) : ℝ :=
  toDegrees (Real.arccos
    ((Point.sub t.v1 t.v0).normalize.dot (Point.sub t.v1 t.v2).normalize))

/-- The triangle of the source's validation test: `(0,0), (0.5,1), (1,0)`. -/
noncomputable def exTriangleValid : Triangle :=
  ⟨⟨0, 0⟩, ⟨1/2, 1⟩, ⟨1, 0⟩⟩

/-- The degenerately thin triangle of the source's invalidation test:
`(0,0), (0,1), (50,0)`. -/
noncomputable def exTriangleThin : Triangle :=
  ⟨⟨0, 0⟩, ⟨0, 1⟩, ⟨50, 0⟩⟩

/-! ## Shapes

The exact f64 arithmetic of the validity predicates below (`-`, `*`, `/`,
comparisons) is idealized over `ℚ`; every concrete input evaluated in the
theorems has small dyadic coordinates at which those f64 operations are
exact. -/

/-- `Ellipse` (ellipse.rs:26-32): center `(u, v)`, semi-axes `(a, b)`,
optional rotation angle. -/
structure Ellipse where
  u : ℚ
  v : ℚ
  a : ℚ
  b : ℚ
  angle : Option ℚ

/-- `f64::EPSILON` is `2⁻⁵²`, exactly representable in `ℚ`. -/
def f64_EPSILON : ℚ := 1 / 2 ^ 52

/-- `Ellipse::is_circle` (ellipse.rs:66-71).  The source's comment announces a
closeness test of the half-heights, but the code compares the signed
difference `self.a - self.b < f64::EPSILON` — no absolute value is taken. -/
def Ellipse.is_circle (e : Ellipse) : Bool :=
  decide (e.a - e.b < f64_EPSILON)

/-- The ellipse of the source's own rotation test: `a = 1`, `b = 2`. -/
def exEllipseTall : Ellipse := ⟨0, 0, 1, 2, some 0⟩

/-- `Rectangle` (rectangle.rs:26-34): origin, scaling pair `(width, height)`,
rotation angle. -/
structure Rectangle where
  origin : Point ℚ
  scaling : ℚ × ℚ
  angle : ℚ

/-- `MAX_ASPECT_RATIO` (rectangle.rs:4). -/
def MAX_ASPECT_RATIO : ℚ := 5

/-- `Rectangle::width` (rectangle.rs:42-44). -/
def Rectangle.width (r : Rectangle) : ℚ := r.scaling.1

/-- `Rectangle::height` (rectangle.rs:47-49). -/
def Rectangle.height (r : Rectangle) : ℚ := r.scaling.2

/-- `Rectangle::is_valid` (rectangle.rs:66-75): the source rebinds
`(width, height)` to the scaling pair ordered so the larger component is
first, then tests `width / height ≤ MAX_ASPECT_RATIO`; the rebinding is
inlined into the two branches here. -/
def Rectangle.is_valid (r : Rectangle) : Bool :=
  if r.scaling.1 < r.scaling.2 then
    decide (r.scaling.2 / r.scaling.1 ≤ MAX_ASPECT_RATIO)
  else
    decide (r.scaling.1 / r.scaling.2 ≤ MAX_ASPECT_RATIO)

/-- The 25×5 rectangle of the source's validation test. -/
def exRectangle25x5 : Rectangle := ⟨⟨0, 0⟩, (25, 5), 0⟩

/-- The 30×5 rectangle of the source's invalidation test. -/
def exRectangle30x5 : Rectangle := ⟨⟨0, 0⟩, (30, 5), 0⟩

/-- `Polygon` (polygon.rs:9-11): ordered vertex list. -/
structure Polygon where
  vertices : List (Point ℚ)

/-- `Polygon::order` (polygon.rs:21-23): the vertex count. -/
def Polygon.order (P : Polygon) : Nat := P.vertices.length

/-- Vertex access.  The source indexes `self.vertices[i]` with indices that
are always reduced `% order`, hence in bounds; the default value of `getD` is
never reached at the call sites below. -/
def Polygon.vtx (P : Polygon) (i : Nat) : Point ℚ := P.vertices.getD i ⟨0, 0⟩

/-- The cross product the source's loop tests at index `idx`
(polygon.rs:43-48): with `i = idx % order`, `j = (idx+1) % order`,
`k = (idx+2) % order`, it is `cross(vertices[j] - vertices[i],
vertices[k] - vertices[j])` (recall `Point.sub p q` models the Rust `p - q`).
For `idx = 0` this is also exactly the `sign` reference value of
polygon.rs:36-40. -/
def Polygon.codeCross (P : Polygon) (idx : Nat) : ℚ :=
  Vector.cross
    (Point.sub (P.vtx ((idx + 1) % P.order)) (P.vtx (idx % P.order)))
    (Point.sub (P.vtx ((idx + 2) % P.order)) (P.vtx ((idx + 1) % P.order)))

/-- The claim's edge vector `i`: the displacement from vertex `i % order` to
vertex `(i+1) % order`, written out componentwise. -/
def Polygon.claimEdge (P : Polygon) (i : Nat) : Vector ℚ :=
  ⟨(P.vtx ((i + 1) % P.order)).x - (P.vtx (i % P.order)).x,
   (P.vtx ((i + 1) % P.order)).y - (P.vtx (i % P.order)).y⟩

/-- The claim's "signed cross product of consecutive edge vectors" at triple
`i`, with wraparound indexing. -/
def Polygon.claimCross (P : Polygon) (i : Nat) : ℚ :=
  Vector.cross (P.claimEdge i) (P.claimEdge (i + 1))

/-- The sign of a rational: `1`, `-1`, or `0`. -/
def sgn (q : ℚ) : Int :=
  if 0 < q then 1 else if q < 0 then -1 else 0

/-- The claim's validity condition, literally: order at least 3 and all the
cyclic triples' cross products of the same sign. -/
def Polygon.claimSameSign (P : Polygon) : Prop :=
  3 ≤ P.order ∧
    ∀ i < P.order, ∀ j < P.order, sgn (P.claimCross i) = sgn (P.claimCross j)

/-- `Polygon::is_valid` (polygon.rs:29-55): fewer than 3 vertices is invalid;
otherwise every loop index `1 ≤ idx < order` must give a cross product whose
`> 0` test agrees with the reference triple's (`idx = 0`). -/
def Polygon.is_valid (P : Polygon) : Bool :=
  if P.order < 3 then
    false
  else
    (List.range' 1 (P.order - 1)).all fun idx =>
      decide (P.codeCross idx > 0) == decide (P.codeCross 0 > 0)

/-- A clockwise square with the midpoint of its first side inserted as an
extra (collinear) vertex: cross products `0, -2, -4, -4, -2`. -/
def exPolygonTruncated : Polygon :=
  ⟨[⟨0, 0⟩, ⟨0, 1⟩, ⟨0, 2⟩, ⟨2, 2⟩, ⟨2, 0⟩]⟩

/-- The counter-clockwise unit square of the source's validation test. -/
def exPolygonSquare : Polygon :=
  ⟨[⟨0, 0⟩, ⟨1, 0⟩, ⟨1, 1⟩, ⟨0, 1⟩]⟩

/-! ## Heatmap accumulator (heatmap.rs)

The struct invariant `inner.len() = width * height` is maintained by every
constructor in the source and is carried as a field of the embedding, which
justifies the panic-free indexing of the source. -/

/-- `Heatmap` (heatmap.rs:22-26): row-major dense grid of `u64` magnitudes. -/
structure Heatmap where
  inner : List Nat
  width : Nat
  height : Nat
  hlen : inner.length = width * height

/-- `Heatmap::new` (heatmap.rs:30-36): zero-filled grid. -/
def Heatmap.new (w h : Nat) : Heatmap where
  inner := List.replicate (w * h) 0
  width := w
  height := h
  hlen := by simp

/-- `Heatmap::from_fn` (heatmap.rs:42-58): fills index `idx` of the backing
vector with `f (idx % width) (idx / width)`, i.e. one invocation of `f` per
cell in row-major order. -/
def Heatmap.from_fn (w h : Nat) (f : Nat → Nat → Nat) : Heatmap where
  inner := List.ofFn fun idx : Fin (w * h) => f (idx.val % w) (idx.val / w)
  width := w
  height := h
  hlen := by simp

/-- `Heatmap::clear` (heatmap.rs:79-83): drops the backing vector and
reallocates an all-zero one of `width * height` cells; dimensions kept. -/
def Heatmap.clear (hm : Heatmap) : Heatmap where
  inner := List.replicate (hm.width * hm.height) 0
  width := hm.width
  height := hm.height
  hlen := by simp

/-- `Heatmap::get_pixel` (heatmap.rs:87-93): bounds-checked read of the cell at
row-major index `y * width + x`; `None` out of range.  The index is within the
backing vector by the struct invariant. -/
def Heatmap.get_pixel (hm : Heatmap) (x y : Nat) : Option Nat :=
  if h : x < hm.width ∧ y < hm.height then
    some (hm.inner.get ⟨y * hm.width + x, by
      rw [hm.hlen]
      calc y * hm.width + x < y * hm.width + hm.width := by omega
        _ = (y + 1) * hm.width := by ring
        _ ≤ hm.height * hm.width := Nat.mul_le_mul_right _ h.2
        _ = hm.width * hm.height := Nat.mul_comm _ _⟩)
  else none

/-- `Heatmap::get_pixel_mut` (heatmap.rs:97-103): same bounds check as
`get_pixel`; the returned mutable borrow is modelled by the row-major index
`y * width + x` of the cell it aliases. -/
def Heatmap.get_pixel_mut (hm : Heatmap) (x y : Nat) : Option Nat :=
  if x < hm.width ∧ y < hm.height then some (y * hm.width + x) else none

/-- Rust `impl Add for Heatmap` (heatmap.rs:142-160): the result has the
componentwise-minimum dimensions, and cell `i` (a flat index of the truncated
grid) is `self.inner[i] + other.inner[i]` — each operand indexed by the same
flat index into its own buffer.  `u64` addition wraps, hence `% 2 ^ 64`.  Both
reads are in bounds because `min wA wB * min hA hB` is at most each operand's
own length. -/
def Heatmap.add (a b : Heatmap) : Heatmap where
  inner := List.ofFn fun i : Fin (min a.width b.width * min a.height b.height) =>
    (a.inner.get ⟨i.val, by
        rw [a.hlen]
        exact Nat.lt_of_lt_of_le i.isLt
          (Nat.mul_le_mul (Nat.min_le_left _ _) (Nat.min_le_left _ _))⟩ +
      b.inner.get ⟨i.val, by
        rw [b.hlen]
        exact Nat.lt_of_lt_of_le i.isLt
          (Nat.mul_le_mul (Nat.min_le_right _ _) (Nat.min_le_right _ _))⟩) % 2 ^ 64
  width := min a.width b.width
  height := min a.height b.height
  hlen := by simp

/-- Rust `impl AddAssign for Heatmap` (heatmap.rs:162-178): the body recomputes
exactly the truncated flat-index sum of `Add` and overwrites `self` with it, so
the post-state of `a += b` is the value of `a + b`. -/
def Heatmap.add_assign (a b : Heatmap) : Heatmap :=
  Heatmap.add a b

/-- A 2×2 heatmap with row-major cells `[0, 1, 2, 3]`: cell `(x, y) = 2y + x`. -/
def exHeatA : Heatmap :=
  Heatmap.from_fn 2 2 fun x y => 2 * y + x

/-- A 1×2 heatmap with row-major cells `[10, 20]`: cell `(0, y) = 10y + 10`. -/
def exHeatB : Heatmap :=
  Heatmap.from_fn 1 2 fun _ y => 10 * y + 10

/-! ## Theorems -/

/-- Row-major decoding: the column recovered from a flat index. -/
theorem rowmajor_mod {w x : Nat} (y : Nat) (hx : x < w) : (y * w + x) % w = x := by
  rw [Nat.mul_comm, Nat.mul_add_mod, Nat.mod_eq_of_lt hx]

/-- Row-major decoding: the row recovered from a flat index. -/
theorem rowmajor_div {w x : Nat} (y : Nat) (hx : x < w) : (y * w + x) / w = y := by
  have hw : 0 < w := Nat.lt_of_le_of_lt (Nat.zero_le x) hx
  rw [Nat.mul_comm, Nat.mul_add_div hw, Nat.div_eq_of_lt hx, Nat.add_zero]

/-- C2: a heatmap built by `from_fn w h f` answers `get_pixel x y` with exactly
`f x y` at every in-range coordinate (`x < w`, `y < h`); the backing vector is
filled by one invocation of `f` per coordinate in row-major order (that order
is the definition of `Heatmap.from_fn`). -/
theorem from_fn_get_pixel (w h : Nat) (f : Nat → Nat → Nat) {x y : Nat}
    (hx : x < w) (hy : y < h) :
    (Heatmap.from_fn w h f).get_pixel x y = some (f x y) := by
  unfold Heatmap.get_pixel
  rw [dif_pos ⟨hx, hy⟩]
  simp [Heatmap.from_fn, List.get_ofFn, rowmajor_mod y hx, rowmajor_div y hx]

/-- Witness for C2 at the spec's own example `from_fn 2 2 (x ^ y)`:
`get_pixel 0 1` is `0 ^ 1 = 0`. -/
theorem from_fn_get_pixel_witness :
    (Heatmap.from_fn 2 2 fun x y => x ^ y).get_pixel 0 1 = some 0 :=
  from_fn_get_pixel 2 2 (fun x y => x ^ y) (by decide) (by decide)

/-- C7: `get_pixel` and `get_pixel_mut` answer `none` exactly when `x ≥ width`
or `y ≥ height`; at any in-range coordinate both are present, referring to the
cell at row-major index `y * width + x` (for `get_pixel` the cell's value, for
`get_pixel_mut` the aliased location); no access faults, the index being within
the backing vector. -/
theorem get_pixel_bounds (hm : Heatmap) (x y : Nat) :
    (hm.get_pixel x y = none ↔ hm.width ≤ x ∨ hm.height ≤ y) ∧
    (hm.get_pixel_mut x y = none ↔ hm.width ≤ x ∨ hm.height ≤ y) ∧
    (x < hm.width → y < hm.height →
      hm.get_pixel x y = hm.inner[y * hm.width + x]? ∧
      (hm.inner[y * hm.width + x]?).isSome = true ∧
      hm.get_pixel_mut x y = some (y * hm.width + x)) := by
  by_cases hin : x < hm.width ∧ y < hm.height
  · have hidx : y * hm.width + x < hm.inner.length := by
      rw [hm.hlen]
      calc y * hm.width + x < y * hm.width + hm.width := by omega
        _ = (y + 1) * hm.width := by ring
        _ ≤ hm.height * hm.width := Nat.mul_le_mul_right _ hin.2
        _ = hm.width * hm.height := Nat.mul_comm _ _
    refine ⟨?_, ?_, fun _ _ => ⟨?_, ?_, ?_⟩⟩
    · simp only [Heatmap.get_pixel, dif_pos hin]
      simp
      omega
    · simp only [Heatmap.get_pixel_mut, if_pos hin]
      simp
      omega
    · simp only [Heatmap.get_pixel, dif_pos hin]
      rw [List.getElem?_eq_getElem hidx]
      simp [List.get_eq_getElem]
    · rw [List.getElem?_eq_getElem hidx]
      simp
    · simp only [Heatmap.get_pixel_mut, if_pos hin]
  · refine ⟨?_, ?_, fun hx hy => absurd ⟨hx, hy⟩ hin⟩
    · simp only [Heatmap.get_pixel, dif_neg hin]
      simp
      omega
    · simp only [Heatmap.get_pixel_mut, if_neg hin]
      simp
      omega

/-- Witness for C7 on a concrete 2×2 heatmap: out-of-range `x` gives `none`,
and the in-range corner `(1, 1)` aliases flat index `3`. -/
theorem get_pixel_bounds_witness :
    (Heatmap.new 2 2).get_pixel 3 0 = none ∧
    (Heatmap.new 2 2).get_pixel_mut 1 1 = some 3 := by
  refine ⟨(get_pixel_bounds (Heatmap.new 2 2) 3 0).1.mpr (Or.inl (by decide)), ?_⟩
  exact ((get_pixel_bounds (Heatmap.new 2 2) 1 1).2.2 (by decide) (by decide)).2.2

/-- C8: after `clear`, the dimensions are unchanged and every in-range
`get_pixel` answers `0`. -/
theorem clear_get_pixel (hm : Heatmap) :
    hm.clear.width = hm.width ∧ hm.clear.height = hm.height ∧
    (∀ x y, x < hm.width → y < hm.height → hm.clear.get_pixel x y = some 0) := by
  refine ⟨rfl, rfl, fun x y hx hy => ?_⟩
  unfold Heatmap.get_pixel
  rw [dif_pos ⟨hx, hy⟩]
  simp [Heatmap.clear]

/-- Witness for C8 on a concrete nonzero heatmap. -/
theorem clear_get_pixel_witness :
    (Heatmap.from_fn 2 2 fun x y => x + y).clear.get_pixel 1 1 = some 0 :=
  (clear_get_pixel (Heatmap.from_fn 2 2 fun x y => x + y)).2.2 1 1
    (by decide) (by decide)

/-- C1 (code bug): merging heatmaps of different widths does NOT produce the
per-coordinate sum.  With `A = from_fn 2 2` holding `[0, 1, 2, 3]` and
`B = from_fn 1 2` holding `[10, 20]`, the merge has dimensions `(1, 2)` as the
claim says, but its cell `(0, 1)` is `A.inner[1] + B.inner[1] = 1 + 20 = 21`
(flat-index sum), not `A(0,1) + B(0,1) = 2 + 20 = 22`: the source indexes both
operands by the flat index of the truncated grid instead of re-encoding the
coordinate in each operand's own width. -/
theorem add_flat_index_bug :
    (exHeatA.add exHeatB).width = 1 ∧
    (exHeatA.add exHeatB).height = 2 ∧
    (exHeatA.add exHeatB).get_pixel 0 1 = some 21 ∧
    (exHeatA.add_assign exHeatB).get_pixel 0 1 = some 21 ∧
    exHeatA.get_pixel 0 1 = some 2 ∧
    exHeatB.get_pixel 0 1 = some 20 ∧
    (21 : Nat) ≠ (2 + 20) % 2 ^ 64 := by
  refine ⟨rfl, rfl, by decide, by decide, by decide, by decide, by decide⟩

/-- The double sign flip introduced by the source's reversed `Point` sub
cancels in the cross product: the loop's tested value at `i` is exactly the
cross product of the true consecutive edge vectors. -/
theorem codeCross_eq_claimCross (P : Polygon) (i : Nat) :
    P.codeCross i = P.claimCross i := by
  simp only [Polygon.codeCross, Polygon.claimCross, Polygon.claimEdge,
    Vector.cross, Point.sub]
  ring

/-- C3 (counterexample): on the clockwise square with one collinear extra
vertex, `is_valid` answers true, yet the triples' cross products
(`0, -2, -4, -4, -2`) do not all have the same sign — the zero cross of the
collinear triple falls on the same side of the source's `> 0` test as the
negative ones. -/
theorem polygon_same_sign_counterexample :
    exPolygonTruncated.is_valid = true ∧ ¬ exPolygonTruncated.claimSameSign := by
  have hc0 : exPolygonTruncated.claimCross 0 = 0 := by
    norm_num [Polygon.claimCross, Polygon.claimEdge, Polygon.vtx, Polygon.order,
      exPolygonTruncated, Vector.cross]
  have hc1 : exPolygonTruncated.claimCross 1 = -2 := by
    norm_num [Polygon.claimCross, Polygon.claimEdge, Polygon.vtx, Polygon.order,
      exPolygonTruncated, Vector.cross]
  constructor
  · norm_num [Polygon.is_valid, Polygon.codeCross, Polygon.vtx, Polygon.order,
      exPolygonTruncated, Vector.cross, Point.sub, List.range']
  · rintro ⟨-, h⟩
    have h01 := h 0 (by decide) 1 (by decide)
    rw [hc0, hc1] at h01
    norm_num [sgn] at h01

/-- C3 (amended): `is_valid` is true iff the order is at least 3 and every
cyclic triple's edge-vector cross product agrees with the first triple's on
the strict test `0 < ·` — equivalently, either all cross products are
positive or all are non-positive.  (Cross products that are zero count as
non-positive rather than as a third sign; in particular polygons of fewer
than 3 vertices are invalid.) -/
theorem polygon_is_valid_iff (P : Polygon) :
    P.is_valid = true ↔
      3 ≤ P.order ∧
        ∀ i < P.order, (0 < P.claimCross i ↔ 0 < P.claimCross 0) := by
  unfold Polygon.is_valid
  by_cases h3 : P.order < 3
  · simp only [if_pos h3, Bool.false_eq_true, false_iff]
    rintro ⟨h, -⟩
    omega
  · push_neg at h3
    rw [if_neg (by omega)]
    simp only [List.all_eq_true, List.mem_range'_1, beq_iff_eq, decide_eq_decide,
      gt_iff_lt, codeCross_eq_claimCross]
    constructor
    · intro h
      refine ⟨h3, fun i hi => ?_⟩
      rcases Nat.eq_zero_or_pos i with rfl | hpos
      · exact Iff.rfl
      · exact h i ⟨hpos, by omega⟩
    · rintro ⟨-, h⟩ i hi
      exact h i (by omega)

/-- Witness for the amended C3 at the source's counter-clockwise unit square:
valid, of order 4, all cross products agreeing with the first. -/
theorem polygon_is_valid_iff_witness :
    3 ≤ exPolygonSquare.order ∧
      ∀ i < exPolygonSquare.order,
        (0 < exPolygonSquare.claimCross i ↔ 0 < exPolygonSquare.claimCross 0) :=
  (polygon_is_valid_iff exPolygonSquare).mp (by
    norm_num [Polygon.is_valid, Polygon.codeCross, Polygon.vtx, Polygon.order,
      exPolygonSquare, Vector.cross, Point.sub, List.range'])

/-- C5: a rectangle is valid iff `max(width, height) / min(width, height)` is
at most `5`, the bound inclusive: the 25×5 rectangle (ratio exactly `5`) is
valid and the 30×5 one (ratio `6`) is not. -/
theorem rectangle_is_valid_aspect_ratio :
    (∀ r : Rectangle,
      r.is_valid = true ↔ max r.width r.height / min r.width r.height ≤ 5) ∧
    exRectangle25x5.is_valid = true ∧ exRectangle30x5.is_valid = false := by
  refine ⟨fun r => ?_, ?_, ?_⟩
  · rcases lt_or_le r.scaling.1 r.scaling.2 with h | h
    · simp only [Rectangle.is_valid, MAX_ASPECT_RATIO, if_pos h, decide_eq_true_eq,
        Rectangle.width, Rectangle.height, max_eq_right h.le, min_eq_left h.le]
    · simp only [Rectangle.is_valid, MAX_ASPECT_RATIO, if_neg (not_lt.mpr h),
        decide_eq_true_eq, Rectangle.width, Rectangle.height, max_eq_left h,
        min_eq_right h]
  · norm_num [Rectangle.is_valid, exRectangle25x5, MAX_ASPECT_RATIO]
  · norm_num [Rectangle.is_valid, exRectangle30x5, MAX_ASPECT_RATIO]

/-- C6 (code bug): `is_circle` compares the signed difference `a - b` against
machine epsilon without taking an absolute value, so the tall ellipse
`a = 1, b = 2` — the source's own rotation-test ellipse, which its docstring
would not call a circle — passes (`1 - 2 = -1 < ε`) even though
`|a - b| = 1` is far above `ε`. -/
theorem ellipse_is_circle_signed_difference :
    exEllipseTall.is_circle = true ∧
      ¬ |exEllipseTall.a - exEllipseTall.b| < f64_EPSILON := by
  constructor
  · norm_num [Ellipse.is_circle, exEllipseTall, f64_EPSILON]
  · norm_num [exEllipseTall, f64_EPSILON]

/-- C10: `p - q` is the displacement from the left operand to the right
operand — components `(q.x - p.x, q.y - p.y)` — so `p + (p - q)` lands on `q`
while `q + (p - q)` does not (whenever `p ≠ q`). -/
theorem point_sub_displacement (p q : Point ℚ) :
    (Point.sub p q).x = q.x - p.x ∧ (Point.sub p q).y = q.y - p.y ∧
    Point.addVec p (Point.sub p q) = q ∧
    (p ≠ q → Point.addVec q (Point.sub p q) ≠ q) := by
  refine ⟨rfl, rfl, ?_, ?_⟩
  · cases p; cases q
    simp only [Point.addVec, Point.sub, Point.mk.injEq]
    constructor <;> ring
  · intro hne heq
    apply hne
    cases p; cases q
    simp only [Point.addVec, Point.sub, Point.mk.injEq] at heq ⊢
    obtain ⟨h1, h2⟩ := heq
    constructor <;> linarith

/-- Witness for C10 at `p = (0,0)`, `q = (1,2)`. -/
theorem point_sub_displacement_witness :
    Point.addVec ⟨0, 0⟩ (Point.sub ⟨0, 0⟩ ⟨1, 2⟩) = (⟨1, 2⟩ : Point ℚ) ∧
    Point.addVec ⟨1, 2⟩ (Point.sub ⟨0, 0⟩ ⟨1, 2⟩) ≠ (⟨1, 2⟩ : Point ℚ) :=
  ⟨(point_sub_displacement ⟨0, 0⟩ ⟨1, 2⟩).2.2.1,
   (point_sub_displacement ⟨0, 0⟩ ⟨1, 2⟩).2.2.2 (by simp)⟩

/-- Negating both vectors changes neither the normalization scale nor the dot
product of the normalized vectors. -/
theorem dot_normalize_neg (u v : Vector ℝ) :
    (Vector.normalize ⟨-u.x, -u.y⟩).dot (Vector.normalize ⟨-v.x, -v.y⟩) =
      (Vector.normalize u).dot (Vector.normalize v) := by
  simp only [Vector.normalize, Vector.dot]
  rw [show -u.x * -u.x + -u.y * -u.y = u.x * u.x + u.y * u.y by ring,
    show -v.x * -v.x + -v.y * -v.y = v.x * v.x + v.y * v.y by ring]
  ring

/-- The source computes `a1` from the two vectors pointing INTO vertex `a`
(an artefact of the reversed `Point` subtraction); both are the negations of
the claim's edge vectors out of `a`, so the angle is the same. -/
theorem angle1_eq_claimAngleA (t : Triangle) : t.angle1 = t.claimAngleA := by
  unfold Triangle.angle1 Triangle.claimAngleA
  rw [show Point.sub t.v1 t.v0
        = (⟨-(Point.sub t.v0 t.v1).x, -(Point.sub t.v0 t.v1).y⟩ : Vector ℝ) by
      simp only [Point.sub, Vector.mk.injEq]; constructor <;> ring,
    show Point.sub t.v2 t.v0
        = (⟨-(Point.sub t.v0 t.v2).x, -(Point.sub t.v0 t.v2).y⟩ : Vector ℝ) by
      simp only [Point.sub, Vector.mk.injEq]; constructor <;> ring,
    dot_normalize_neg]

/-- Same cancellation for `a2` at vertex `b`. -/
theorem angle2_eq_claimAngleB (t : Triangle) : t.angle2 = t.claimAngleB := by
  unfold Triangle.angle2 Triangle.claimAngleB
  rw [show Point.sub t.v0 t.v1
        = (⟨-(Point.sub t.v1 t.v0).x, -(Point.sub t.v1 t.v0).y⟩ : Vector ℝ) by
      simp only [Point.sub, Vector.mk.injEq]; constructor <;> ring,
    show Point.sub t.v2 t.v1
        = (⟨-(Point.sub t.v1 t.v2).x, -(Point.sub t.v1 t.v2).y⟩ : Vector ℝ) by
      simp only [Point.sub, Vector.mk.injEq]; constructor <;> ring,
    dot_normalize_neg]

/-- Degree threshold in radians: `15 ≤ toDegrees θ` iff `π/12 ≤ θ`. -/
theorem fifteen_le_toDegrees {θ : ℝ} : 15 ≤ toDegrees θ ↔ Real.pi / 12 ≤ θ := by
  unfold toDegrees
  rw [show θ * (180 / Real.pi) = θ * 180 / Real.pi by ring,
    le_div_iff Real.pi_pos]
  constructor <;> intro h <;> linarith

/-- The third angle's threshold in radians:
`15 ≤ 180 - toDegrees β - toDegrees α` iff `α + β ≤ 11π/12`. -/
theorem fifteen_le_sub_toDegrees {α β : ℝ} :
    15 ≤ 180 - toDegrees β - toDegrees α ↔ α + β ≤ 11 * Real.pi / 12 := by
  unfold toDegrees
  rw [show (180 : ℝ) - β * (180 / Real.pi) - α * (180 / Real.pi)
        = 180 - (α + β) * 180 / Real.pi by ring,
    show (15 : ℝ) ≤ 180 - (α + β) * 180 / Real.pi
        ↔ (α + β) * 180 / Real.pi ≤ 165 from ⟨fun h => by linarith, fun h => by linarith⟩,
    div_le_iff Real.pi_pos]
  constructor <;> intro h <;> linarith

/-- `arccos` is (globally) antitone. -/
theorem arccos_le_arccos {x y : ℝ} (h : x ≤ y) :
    Real.arccos y ≤ Real.arccos x := by
  rw [Real.arccos_eq_pi_div_two_sub_arcsin, Real.arccos_eq_pi_div_two_sub_arcsin]
  have := Real.monotone_arcsin h
  linarith

/-- `√5` is at least 2. -/
theorem two_le_sqrt_five : 2 ≤ Real.sqrt 5 := by
  nlinarith [Real.sq_sqrt (show (0 : ℝ) ≤ 5 by norm_num), Real.sqrt_nonneg 5]

/-- C4: a triangle is valid iff its three interior angles are all at least
15°, the first two computed as the arccosine (in degrees) of the dot product
of the normalized edge vectors at vertices `a` and `b`, the third derived as
`180° - angle1 - angle2`; in particular `(0,0), (0.5,1), (1,0)` is valid and
the thin `(0,0), (0,1), (50,0)` is not. -/
theorem triangle_is_valid_angles :
    (∀ t : Triangle, t.IsValid ↔
      (15 ≤ t.claimAngleA ∧ 15 ≤ t.claimAngleB ∧
        15 ≤ 180 - t.claimAngleA - t.claimAngleB)) ∧
    exTriangleValid.IsValid ∧ ¬ exTriangleThin.IsValid := by
  have hpi := Real.pi_pos
  refine ⟨fun t => ?_, ?_, ?_⟩
  · unfold Triangle.IsValid MIN_INTERNAL_ANGLE
    rw [angle1_eq_claimAngleA, angle2_eq_claimAngleB]
    exact ⟨fun ⟨h1, h2, h3⟩ => ⟨h1, h2, by linarith⟩,
      fun ⟨h1, h2, h3⟩ => ⟨h1, h2, by linarith⟩⟩
  · -- the well-proportioned triangle: angles arccos (√5)⁻¹, arccos (3/5)
    have h54 : Real.sqrt (5 / 4) = Real.sqrt 5 / 2 := by
      rw [show ((5 : ℝ) / 4) = 5 / 2 ^ 2 by norm_num, Real.sqrt_div' 5 (by norm_num),
        Real.sqrt_sq (by norm_num : (0 : ℝ) ≤ 2)]
    have h5pos : 0 < Real.sqrt 5 := Real.sqrt_pos.mpr (by norm_num)
    have hmul : Real.sqrt 5 * Real.sqrt 5 = 5 :=
      Real.mul_self_sqrt (by norm_num)
    have e1 : exTriangleValid.angle1 = toDegrees (Real.arccos (Real.sqrt 5)⁻¹) := by
      unfold Triangle.angle1 exTriangleValid Vector.normalize Vector.dot rsqrt Point.sub
      norm_num [Real.sqrt_one, h54]
      congr 1
      field_simp
    have e2 : exTriangleValid.angle2 = toDegrees (Real.arccos (3 / 5)) := by
      unfold Triangle.angle2 exTriangleValid Vector.normalize Vector.dot rsqrt Point.sub
      norm_num
      have hd : Real.sqrt 4 / Real.sqrt 5 * (Real.sqrt 4 / Real.sqrt 5) = 4 / 5 := by
        rw [div_mul_div_comm, Real.mul_self_sqrt (by norm_num : (0 : ℝ) ≤ 4), hmul]
      congr 1
      congr 1
      linear_combination (3 / 4) * hd
    have harc13 : Real.arccos (1 / 2) = Real.pi / 3 := by
      rw [← Real.cos_pi_div_three]
      exact Real.arccos_cos (by positivity) (by linarith)
    have ha1 : Real.pi / 12 ≤ Real.arccos (Real.sqrt 5)⁻¹ := by
      have hinv : (Real.sqrt 5)⁻¹ ≤ 1 / 2 := by
        rw [show (1 : ℝ) / 2 = 2⁻¹ by norm_num]
        exact inv_le_inv_of_le (by norm_num) two_le_sqrt_five
      have := arccos_le_arccos hinv
      rw [harc13] at this
      linarith
    have ha2 : Real.pi / 12 ≤ Real.arccos (3 / 5) := by
      have hcos : Real.cos (Real.pi / 4) ≤ Real.cos (Real.pi / 12) :=
        Real.cos_le_cos_of_nonneg_of_le_pi (by positivity) (by linarith) (by linarith)
      have hsqrt2 : (6 : ℝ) / 5 ≤ Real.sqrt 2 := by
        nlinarith [Real.sq_sqrt (show (0 : ℝ) ≤ 2 by norm_num), Real.sqrt_nonneg 2]
      have h35 : (3 : ℝ) / 5 ≤ Real.cos (Real.pi / 12) := by
        rw [Real.cos_pi_div_four] at hcos
        linarith
      have := arccos_le_arccos h35
      rw [Real.arccos_cos (by positivity) (by linarith)] at this
      linarith
    have ha1' : Real.arccos (Real.sqrt 5)⁻¹ ≤ Real.pi / 2 :=
      Real.arccos_le_pi_div_two.mpr (by positivity)
    have ha2' : Real.arccos (3 / 5) ≤ 5 * Real.pi / 12 := by
      have hcos : Real.cos (5 * Real.pi / 12) ≤ Real.cos (Real.pi / 3) :=
        Real.cos_le_cos_of_nonneg_of_le_pi (by positivity) (by linarith) (by linarith)
      rw [Real.cos_pi_div_three] at hcos
      have := arccos_le_arccos (le_trans hcos (by norm_num : (1 : ℝ) / 2 ≤ 3 / 5))
      rwa [Real.arccos_cos (by positivity) (by linarith)] at this
    unfold Triangle.IsValid MIN_INTERNAL_ANGLE
    rw [e1, e2]
    refine ⟨fifteen_le_toDegrees.mpr ha1, fifteen_le_toDegrees.mpr ha2, ?_⟩
    exact fifteen_le_sub_toDegrees.mpr (by linarith)
  · -- the thin triangle: a1 = 90° and a2 > 75°, so a3 < 15°
    have h2501 : (50 : ℝ) < Real.sqrt 2501 := by
      rw [show (50 : ℝ) = Real.sqrt (50 ^ 2) from
        (Real.sqrt_sq (by norm_num : (0 : ℝ) ≤ 50)).symm]
      exact Real.sqrt_lt_sqrt (by positivity) (by norm_num)
    have h2501pos : 0 < Real.sqrt 2501 := by linarith
    have e1 : exTriangleThin.angle1 = toDegrees (Real.arccos 0) := by
      unfold Triangle.angle1 exTriangleThin Vector.normalize Vector.dot rsqrt Point.sub
      norm_num
    have e2 : exTriangleThin.angle2 = toDegrees (Real.arccos (Real.sqrt 2501)⁻¹) := by
      unfold Triangle.angle2 exTriangleThin Vector.normalize Vector.dot rsqrt Point.sub
      norm_num [Real.sqrt_one]
    have h90 : toDegrees (Real.arccos 0) = 90 := by
      rw [Real.arccos_zero]
      unfold toDegrees
      field_simp
      ring
    have hlt : 5 * Real.pi / 12 < Real.arccos (Real.sqrt 2501)⁻¹ := by
      have hinvlt : (Real.sqrt 2501)⁻¹ < Real.cos (5 * Real.pi / 12) := by
        have hq : 1 - (5 * Real.pi / 12) ^ 2 / 2 ≤ Real.cos (5 * Real.pi / 12) :=
          Real.one_sub_sq_div_two_le_cos
        have hπlt : Real.pi < 3.15 := Real.pi_lt_d2
        have hinv : (Real.sqrt 2501)⁻¹ < 50⁻¹ := inv_lt_inv_of_lt (by norm_num) h2501
        nlinarith
      have hmemx : (Real.sqrt 2501)⁻¹ ∈ Set.Icc (-1 : ℝ) 1 := by
        constructor
        · exact le_trans (by norm_num : (-1 : ℝ) ≤ 0) (by positivity)
        · rw [show (1 : ℝ) = 1⁻¹ by norm_num]
          exact inv_le_inv_of_le (by norm_num) (by linarith)
      have hmemy : Real.cos (5 * Real.pi / 12) ∈ Set.Icc (-1 : ℝ) 1 :=
        ⟨Real.neg_one_le_cos _, Real.cos_le_one _⟩
      have := Real.strictAntiOn_arccos hmemx hmemy hinvlt
      rwa [Real.arccos_cos (by positivity) (by linarith)] at this
    rintro ⟨-, -, h3⟩
    unfold MIN_INTERNAL_ANGLE at h3
    rw [e1, e2, h90] at h3
    have hle : toDegrees (Real.arccos (Real.sqrt 2501)⁻¹) ≤ 75 := by linarith
    unfold toDegrees at hle
    rw [show Real.arccos (Real.sqrt 2501)⁻¹ * (180 / Real.pi)
        = Real.arccos (Real.sqrt 2501)⁻¹ * 180 / Real.pi by ring,
      div_le_iff Real.pi_pos] at hle
    have : Real.arccos (Real.sqrt 2501)⁻¹ ≤ 5 * Real.pi / 12 := by linarith
    linarith

end Geometrize
